import Mathlib

/-!
Shallow embedding of the game-tracking bot in `src/main.go`.

Modelling choices:
* Timestamps are integers counting nanoseconds (Go `time.Time` / `time.Duration`
  have nanosecond resolution); `time.Now()` becomes an explicit `now : ℤ` argument.
* `GameSession.Duration` is a rational number of seconds; the Go code computes it
  as `endTime.Sub(startTime).Seconds()`, i.e. the nanosecond difference divided
  by 10^9, which is exact in ℚ.
* Go maps (`map[string]time.Time`, `map[string]*UserGameData`,
  `map[string]time.Duration`) are modelled as association lists with the Go map
  operations (lookup finds the unique entry; Go maps have unique keys, so the
  association lists built by the model keep keys unique as well).
* `sync.Mutex` is modelled, for the deadlock analysis, by the trace of
  Lock/Unlock operations a handler performs on the single `data.mu` mutex,
  executed against a non-reentrant single-owner semantics.
* JSON marshalling of the persisted map is modelled as the identity on the
  persisted data structure (`encoding/json` round-trips the fields written by
  `save`); an unreadable or undecodable file is represented abstractly by
  `FileContent.invalid`.
-/

/-- Discord activity types (`discordgo.ActivityType`); the code only
distinguishes `ActivityTypeGame` from everything else. -/
inductive ActivityType where
  | game
  | streaming
  | listening
  | watching
  | custom
  | competing
  deriving DecidableEq, Repr

/-- One entry of `p.Activities` in a presence update: a name and a type. -/
structure Activity where
  name : String
  type : ActivityType
  deriving DecidableEq, Repr

/-- `GameSession` from main.go: one completed play session.
`StartTime`/`EndTime` are nanosecond timestamps, `Duration` is in seconds. -/
structure GameSession where
  GameName : String
  StartTime : ℤ
  EndTime : ℤ
  Duration : ℚ
  deriving DecidableEq, Repr

/-- `UserGameData` from main.go: completed sessions plus the transient
`ActiveGames` map (game name → start time), which is never persisted. -/
structure UserGameData where
  Sessions : List GameSession
  ActiveGames : List (String × ℤ)
  deriving DecidableEq, Repr

/-- `DataStore.Users`: user id → user data. -/
abbrev UsersMap := List (String × UserGameData)

/-- Nanoseconds per second (`time.Second`). -/
def nsPerSec : ℤ := 1000000000

/-- `endTime.Sub(startTime).Seconds()`: the nanosecond difference as seconds. -/
def durationSeconds (startT endT : ℤ) : ℚ :=
  ((endT - startT : ℤ) : ℚ) / (nsPerSec : ℚ)

/-- The `currentActivities` set built in `presenceUpdate`: game-typed activity
names of the snapshot (membership test, as the Go `map[string]bool`). -/
def currentActivities (acts : List Activity) (g : String) : Bool :=
  acts.any (fun a => a.type == ActivityType.game && a.name == g)

/-- First loop of `presenceUpdate`: every open timer whose name is not in the
snapshot is closed into a `GameSession` (end = now, duration = now − start)
and removed from `ActiveGames`. -/
def closeStopped (acts : List Activity) (now : ℤ) (ud : UserGameData) : UserGameData :=
  { Sessions := ud.Sessions ++
      (ud.ActiveGames.filter (fun gt => !currentActivities acts gt.1)).map
        (fun gt =>
          { GameName := gt.1
            StartTime := gt.2
            EndTime := now
            Duration := durationSeconds gt.2 now })
    ActiveGames := ud.ActiveGames.filter (fun gt => currentActivities acts gt.1) }

/-- Second loop of `presenceUpdate`: every game-typed activity of the snapshot
with no open timer gets a fresh timer starting at `now`. -/
def openNew (acts : List Activity) (now : ℤ) (ag : List (String × ℤ)) :
    List (String × ℤ) :=
  acts.foldl
    (fun ag a =>
      if a.type = ActivityType.game ∧ ag.lookup a.name = none
      then ag ++ [(a.name, now)] else ag)
    ag

/-- The per-user reconciliation performed by `presenceUpdate` between taking
and releasing the mutex: close stopped games, then open new ones. -/
def reconcileUser (acts : List Activity) (now : ℤ) (ud : UserGameData) : UserGameData :=
  let closed := closeStopped acts now ud
  { closed with ActiveGames := openNew acts now closed.ActiveGames }

/-- The fresh record `presenceUpdate` (and `!cleargames`) allocates:
empty sessions, empty active games. -/
def emptyUserData : UserGameData :=
  { Sessions := [], ActiveGames := [] }

/-- `data.Users[userID]` with the get-or-create of `presenceUpdate`. -/
def getOrCreate (users : UsersMap) (id : String) : UserGameData :=
  (users.lookup id).getD emptyUserData

/-- `data.Users[userID] = v`: overwrite the entry if present, insert otherwise. -/
def setUser (users : UsersMap) (id : String) (v : UserGameData) : UsersMap :=
  match users.lookup id with
  | some _ => users.map (fun p => if p.1 = id then (id, v) else p)
  | none => users ++ [(id, v)]

/-- State effect of the `presenceUpdate` handler: bot updates are dropped;
otherwise the user record is created if absent and reconciled against the
snapshot. -/
def presenceUpdate (bot : Bool) (id : String) (acts : List Activity) (now : ℤ)
    (users : UsersMap) : UsersMap :=
  if bot then users
  else setUser users id (reconcileUser acts now (getOrCreate users id))

/-- Go float64 → int64 conversion truncates toward zero; on the exact rational
value this is truncated (T-) division of numerator by denominator. -/
def ratTrunc (q : ℚ) : ℤ :=
  q.num.tdiv q.den

/-- `time.Duration(session.Duration) * time.Second`: the float seconds value is
truncated to an integer (interpreted as a nanosecond count) and multiplied by
10^9 ns. -/
def goDurationSeconds (d : ℚ) : ℤ :=
  ratTrunc d * nsPerSec

/-- `gamePlayTimes[k] += v` on the Go map modelled as an association list:
add to the existing entry, or insert a new one mapping `k` to `v`. -/
def addTo (acc : List (String × ℤ)) (k : String) (v : ℤ) : List (String × ℤ) :=
  match acc.lookup k with
  | some old => acc.map (fun p => if p.1 = k then (k, old + v) else p)
  | none => acc ++ [(k, v)]

/-- The totals computed by the `!mygames` handler: per game, the truncated
completed-session durations plus `time.Since(startTime)` (= now − start,
exact nanoseconds) for each active game. Values are nanosecond counts. -/
def reportTotals (ud : UserGameData) (now : ℤ) : List (String × ℤ) :=
  ud.ActiveGames.foldl (fun acc gt => addTo acc gt.1 (now - gt.2))
    (ud.Sessions.foldl (fun acc s => addTo acc s.GameName (goDurationSeconds s.Duration)) [])

/-- Outcome of the `!mygames` command. -/
inductive ReportResult where
  | noData
  | report (totals : List (String × ℤ))
  deriving DecidableEq, Repr

/-- The `!mygames` branch of `messageCreate`: "no data" when the user is
unknown or has an empty `Sessions` slice; otherwise the aggregated totals. -/
def mygames (users : UsersMap) (id : String) (now : ℤ) : ReportResult :=
  match users.lookup id with
  | none => ReportResult.noData
  | some ud =>
      if ud.Sessions.length = 0 then ReportResult.noData
      else ReportResult.report (reportTotals ud now)

/-- The `!cleargames` branch of `messageCreate`: an existing record is replaced
by a fresh empty one; an unknown user is left untouched. -/
def cleargames (users : UsersMap) (id : String) : UsersMap :=
  match users.lookup id with
  | some _ => setUser users id emptyUserData
  | none => users

/-- The persisted JSON layout: user id → completed sessions only
(`ActiveGames` carries `json:"-"` and is never written). -/
abbrev PersistedMap := List (String × List GameSession)

/-- `DataStore.save`: serialize, per user, only the `Sessions` slice. -/
def saveUsers (users : UsersMap) : PersistedMap :=
  users.map (fun p => (p.1, p.2.Sessions))

/-- Contents of the data file as seen by `load`: either data that unmarshals
to a persisted map, or bytes that fail to unmarshal. -/
inductive FileContent where
  | valid (m : PersistedMap)
  | invalid
  deriving Repr

/-- Result of `ioutil.ReadFile` in `load`. -/
inductive ReadResult where
  | notExist
  | readFailed
  | ok (c : FileContent)
  deriving Repr

/-- `load`'s error taxonomy: read failure (I/O) or unmarshal failure (format). -/
inductive LoadError where
  | readError
  | formatError
  deriving DecidableEq, Repr

/-- The merge loop of `load`: each loaded user is stored with a freshly
re-initialized (empty) `ActiveGames` map. -/
def mergeLoaded (users : UsersMap) (m : PersistedMap) : UsersMap :=
  m.foldl (fun us p => setUser us p.1 { Sessions := p.2, ActiveGames := [] }) users

/-- `DataStore.load`: a missing file is not an error and changes nothing; a
read failure or an unmarshal failure returns an error with the in-memory map
untouched; valid data is merged with empty `ActiveGames` per user. -/
def loadUsers (users : UsersMap) (r : ReadResult) : Option LoadError × UsersMap :=
  match r with
  | ReadResult.notExist => (none, users)
  | ReadResult.readFailed => (some LoadError.readError, users)
  | ReadResult.ok FileContent.invalid => (some LoadError.formatError, users)
  | ReadResult.ok (FileContent.valid m) => (none, mergeLoaded users m)

/-- Operations on the single `data.mu` mutex, in program order. -/
inductive MuOp where
  | acquire
  | release
  deriving DecidableEq, Repr

/-- Executes a mutex trace under non-reentrant single-owner semantics
(`sync.Mutex`): acquiring while already held blocks forever, so the trace does
not run to completion. -/
def completes : List MuOp → Bool → Bool
  | [], _ => true
  | MuOp.acquire :: rest, held => if held then false else completes rest true
  | MuOp.release :: rest, _ => completes rest false

/-- Mutex operations performed by one call to `DataStore.save`
(`ds.mu.Lock()` … `defer ds.mu.Unlock()`). -/
def saveTrace : List MuOp :=
  [MuOp.acquire, MuOp.release]

/-- The open timers the first loop of `presenceUpdate` closes (each closure
calls `data.save()`). -/
def stoppedGames (acts : List Activity) (ud : UserGameData) : List (String × ℤ) :=
  ud.ActiveGames.filter (fun gt => !currentActivities acts gt.1)

/-- Mutex trace of one `presenceUpdate` call: nothing for bots; otherwise
`data.mu.Lock()`, one `data.save()` per closed timer, and the deferred
`Unlock`. -/
def presenceUpdateTrace (bot : Bool) (acts : List Activity) (ud : UserGameData) :
    List MuOp :=
  if bot then []
  else MuOp.acquire :: (((stoppedGames acts ud).map (fun _ => saveTrace)).flatten ++ [MuOp.release])

/-- Mutex trace of the `!cleargames` branch: `data.mu.Lock()`, then
`data.save()` if (and only if) the user has a record, then the deferred
`Unlock`. -/
def cleargamesTrace (userHasRecord : Bool) : List MuOp :=
  MuOp.acquire :: ((if userHasRecord then saveTrace else []) ++ [MuOp.release])

/-- Total of the values attached to a key in a contribution list. -/
def keyedSum (l : List (String × ℤ)) (g : String) : ℤ :=
  ((l.filter (fun p => p.1 == g)).map Prod.snd).sum

/-- Whether a key occurs in a contribution list. -/
def hasKey (l : List (String × ℤ)) (g : String) : Bool :=
  l.any (fun p => p.1 == g)

/-- Per-game contribution of each completed session to the report
(truncated seconds, in nanoseconds). -/
def sessionContribs (ud : UserGameData) : List (String × ℤ) :=
  ud.Sessions.map (fun s => (s.GameName, goDurationSeconds s.Duration))

/-- Per-game contribution of each open timer to the report
(`time.Since(start)`, exact nanoseconds). -/
def timerContribs (ud : UserGameData) (now : ℤ) : List (String × ℤ) :=
  ud.ActiveGames.map (fun gt => (gt.1, now - gt.2))

/-- Unfolding `List.lookup` at a cons cell into an `if`. -/
theorem lookup_cons {β : Type} (k j : String) (v : β) (l : List (String × β)) :
    ((k, v) :: l).lookup j = if j = k then some v else l.lookup j := by
  by_cases h : j = k
  · subst h; simp [List.lookup]
  · simp [List.lookup, beq_eq_false_iff_ne.mpr h, h]

theorem lookup_append_left {β : Type} (l₁ l₂ : List (String × β)) (j : String)
    (h : (l₁.lookup j).isSome = true) : (l₁ ++ l₂).lookup j = l₁.lookup j := by
  induction l₁ with
  | nil => simp [List.lookup] at h
  | cons p l ih =>
    cases p with
    | mk k v =>
      by_cases hk : j = k
      · subst hk; simp [List.lookup]
      · simp only [List.lookup, List.cons_append, beq_eq_false_iff_ne.mpr hk] at h ⊢
        exact ih h

theorem lookup_append_right {β : Type} (l₁ l₂ : List (String × β)) (j : String)
    (h : l₁.lookup j = none) : (l₁ ++ l₂).lookup j = l₂.lookup j := by
  induction l₁ with
  | nil => rfl
  | cons p l ih =>
    cases p with
    | mk k v =>
      by_cases hk : j = k
      · subst hk; simp [List.lookup] at h
      · simp only [List.lookup, List.cons_append, beq_eq_false_iff_ne.mpr hk] at h ⊢
        exact ih h

theorem lookup_map_replaceKey {β : Type} (l : List (String × β)) (k : String) (v : β)
    (j : String) :
    (l.map (fun p => if p.1 = k then (k, v) else p)).lookup j
      = if j = k then (l.lookup k).map (fun _ => v) else l.lookup j := by
  induction l with
  | nil => by_cases hj : j = k <;> simp [List.lookup, hj]
  | cons p l ih =>
    obtain ⟨k', w⟩ := p
    rw [List.map_cons]
    by_cases hk : k' = k
    · subst hk
      rw [if_pos rfl, lookup_cons, lookup_cons, lookup_cons]
      by_cases hj : j = k' <;> simp [hj, ih]
    · rw [if_neg hk, lookup_cons]
      by_cases hj : j = k'
      · have hjk : ¬j = k := fun h => hk (hj.symm.trans h)
        rw [if_pos hj, if_neg hjk, lookup_cons, if_pos hj]
      · rw [if_neg hj, ih, lookup_cons]
        by_cases hjk : j = k
        · rw [if_pos hjk, if_pos hjk, if_neg (fun h => hk h.symm)]
        · rw [if_neg hjk, if_neg hjk, lookup_cons, if_neg hj]

/-- Lookup after a Go map assignment: the assigned key maps to the new value,
every other key is unchanged. -/
theorem lookup_setUser (us : UsersMap) (id : String) (v : UserGameData) (j : String) :
    (setUser us id v).lookup j = if j = id then some v else us.lookup j := by
  cases h : us.lookup id with
  | some w =>
      have : setUser us id v = us.map (fun p => if p.1 = id then (id, v) else p) := by
        rw [setUser, h]
      rw [this, lookup_map_replaceKey]
      by_cases hj : j = id
      · subst hj; rw [if_pos rfl, if_pos rfl, h]; rfl
      · rw [if_neg hj, if_neg hj]
  | none =>
      have : setUser us id v = us ++ [(id, v)] := by rw [setUser, h]
      rw [this]
      by_cases hj : j = id
      · subst hj
        rw [lookup_append_right us _ _ h, lookup_cons, if_pos rfl, if_pos rfl]
      · rw [if_neg hj]
        cases hq : us.lookup j with
        | some w => rw [lookup_append_left us _ _ (by rw [hq]; rfl), hq]
        | none => rw [lookup_append_right us _ _ hq, lookup_cons, if_neg hj]; rfl

theorem lookup_isSome_of_mem {β : Type} {l : List (String × β)} {k : String} {v : β}
    (h : (k, v) ∈ l) : (l.lookup k).isSome = true := by
  induction l with
  | nil => cases h
  | cons p l ih =>
      obtain ⟨k', w⟩ := p
      rw [lookup_cons]
      by_cases hk : k = k'
      · rw [if_pos hk]; rfl
      · rw [if_neg hk]
        rcases List.mem_cons.mp h with h1 | h2
        · cases h1; exact absurd rfl hk
        · exact ih h2

/-- Lookup after the report accumulation step `gamePlayTimes[k] += v`. -/
theorem lookup_addTo (acc : List (String × ℤ)) (k : String) (v : ℤ) (j : String) :
    (addTo acc k v).lookup j
      = if j = k then some ((acc.lookup k).getD 0 + v) else acc.lookup j := by
  cases h : acc.lookup k with
  | some old =>
      have : addTo acc k v = acc.map (fun p => if p.1 = k then (k, old + v) else p) := by
        rw [addTo, h]
      rw [this, lookup_map_replaceKey]
      by_cases hj : j = k
      · subst hj; rw [if_pos rfl, if_pos rfl, h]; rfl
      · rw [if_neg hj, if_neg hj]
  | none =>
      have : addTo acc k v = acc ++ [(k, v)] := by rw [addTo, h]
      rw [this]
      by_cases hj : j = k
      · subst hj
        rw [lookup_append_right acc _ _ h, lookup_cons, if_pos rfl, if_pos rfl]
        simp
      · rw [if_neg hj]
        cases hq : acc.lookup j with
        | some w => rw [lookup_append_left acc _ _ (by rw [hq]; rfl), hq]
        | none => rw [lookup_append_right acc _ _ hq, lookup_cons, if_neg hj]; rfl

theorem keyedSum_cons (p : String × ℤ) (l : List (String × ℤ)) (g : String) :
    keyedSum (p :: l) g = (if p.1 = g then p.2 else 0) + keyedSum l g := by
  by_cases h : p.1 = g
  · simp [keyedSum, List.filter_cons, h]
  · simp [keyedSum, List.filter_cons, h, beq_eq_false_iff_ne.mpr h]

theorem hasKey_cons (p : String × ℤ) (l : List (String × ℤ)) (g : String) :
    hasKey (p :: l) g = ((p.1 == g) || hasKey l g) := by
  simp [hasKey]

theorem keyedSum_eq_zero {l : List (String × ℤ)} {g : String} (h : hasKey l g = false) :
    keyedSum l g = 0 := by
  induction l with
  | nil => rfl
  | cons p l ih =>
      rw [hasKey_cons] at h
      obtain ⟨h1, h2⟩ := Bool.or_eq_false_iff.mp h
      rw [keyedSum_cons, if_neg (by simpa using h1), ih h2, add_zero]

/-- Folding `addTo` over a contribution list: the final value at a key is the
starting value plus the sum of that key's contributions; a key absent from
both is absent from the result. -/
theorem lookup_foldl_addTo (l : List (String × ℤ)) (acc : List (String × ℤ)) (g : String) :
    (l.foldl (fun a p => addTo a p.1 p.2) acc).lookup g
      = if ((acc.lookup g).isSome || hasKey l g) = true
        then some ((acc.lookup g).getD 0 + keyedSum l g)
        else none := by
  induction l generalizing acc with
  | nil =>
      cases h : acc.lookup g <;> simp [keyedSum, hasKey, h]
  | cons p l ih =>
      obtain ⟨k, v⟩ := p
      rw [List.foldl_cons, ih, lookup_addTo, keyedSum_cons, hasKey_cons]
      by_cases hg : g = k
      · subst hg
        simp [add_assoc]
      · have hg' : ¬(k : String) = g := fun h => hg h.symm
        rw [if_neg hg, if_neg hg', beq_eq_false_iff_ne.mpr hg', Bool.false_or, zero_add]

/-- Characterization of a lookup in the `!mygames` totals: a game appears iff
it occurs among the user's sessions or active games, and its value is the sum
of its session contributions plus its open-timer contributions. -/
theorem reportTotals_lookup (ud : UserGameData) (now : ℤ) (g : String) :
    (reportTotals ud now).lookup g
      = if (hasKey (sessionContribs ud) g || hasKey (timerContribs ud now) g) = true
        then some (keyedSum (sessionContribs ud) g + keyedSum (timerContribs ud now) g)
        else none := by
  have h1 : ud.Sessions.foldl
        (fun acc s => addTo acc s.GameName (goDurationSeconds s.Duration)) []
      = (sessionContribs ud).foldl (fun a p => addTo a p.1 p.2) [] := by
    rw [sessionContribs, List.foldl_map]
  have h2 : ∀ init : List (String × ℤ),
      ud.ActiveGames.foldl (fun acc gt => addTo acc gt.1 (now - gt.2)) init
        = (timerContribs ud now).foldl (fun a p => addTo a p.1 p.2) init := by
    intro init
    rw [timerContribs, List.foldl_map]
  rw [reportTotals, h2, h1, lookup_foldl_addTo, lookup_foldl_addTo]
  cases hs : hasKey (sessionContribs ud) g with
  | true => simp [hs]
  | false => simp [hs, keyedSum_eq_zero hs]

/-- The second loop of `presenceUpdate` changes nothing when every game-typed
activity of the snapshot already has an open timer. -/
theorem openNew_eq_self (acts : List Activity) (now : ℤ) (ag : List (String × ℤ)) :
    (∀ a ∈ acts, a.type = ActivityType.game → (ag.lookup a.name).isSome = true) →
    openNew acts now ag = ag := by
  induction acts with
  | nil => intro _; rfl
  | cons a acts ih =>
      intro h
      rw [openNew, List.foldl_cons]
      have hstep : (if a.type = ActivityType.game ∧ ag.lookup a.name = none
          then ag ++ [(a.name, now)] else ag) = ag := by
        rw [if_neg]
        rintro ⟨ht, hn⟩
        have hs := h a (List.mem_cons_self a acts) ht
        rw [hn] at hs
        simp at hs
      rw [hstep]
      exact ih (fun b hb => h b (List.mem_cons_of_mem a hb))

/-- The second loop of `presenceUpdate` never touches the timer of a game that
already has one: its lookup is unchanged. -/
theorem lookup_openNew_of_isSome (acts : List Activity) (now : ℤ) :
    ∀ (ag : List (String × ℤ)) (g : String), (ag.lookup g).isSome = true →
    (openNew acts now ag).lookup g = ag.lookup g := by
  induction acts with
  | nil => intro ag g _; rfl
  | cons a acts ih =>
      intro ag g h
      rw [openNew, List.foldl_cons]
      by_cases hc : a.type = ActivityType.game ∧ ag.lookup a.name = none
      · rw [if_pos hc]
        have hg : ¬g = a.name := by
          intro e
          rw [e, hc.2] at h
          simp at h
        have hlook : (ag ++ [(a.name, now)]).lookup g = ag.lookup g :=
          lookup_append_left _ _ _ h
        have h' : ((ag ++ [(a.name, now)]).lookup g).isSome = true := by
          rw [hlook]; exact h
        have := ih (ag ++ [(a.name, now)]) g h'
        rw [openNew] at this
        rw [this, hlook]
      · rw [if_neg hc]
        have := ih ag g h
        rw [openNew] at this
        rw [this]

/-- Filtering an association list by a key predicate does not change the
lookup of a key the predicate accepts. -/
theorem lookup_filter_key {β : Type} (p : String → Bool) (l : List (String × β)) (g : String)
    (h : p g = true) : (l.filter (fun q => p q.1)).lookup g = l.lookup g := by
  induction l with
  | nil => rfl
  | cons q l ih =>
      obtain ⟨k, w⟩ := q
      rw [List.filter_cons]
      by_cases hk : g = k
      · subst hk
        rw [if_pos (by simpa using h), lookup_cons, lookup_cons, if_pos rfl, if_pos rfl]
      · by_cases hp : p k = true
        · rw [if_pos (by simpa using hp), lookup_cons, lookup_cons, if_neg hk, if_neg hk]
          exact ih
        · rw [if_neg (by simpa using hp), lookup_cons, if_neg hk]
          exact ih

/-- Lookup through a value-only transformation of an association list. -/
theorem lookup_map_val {β γ : Type} (f : β → γ) (l : List (String × β)) (j : String) :
    ((l.map (fun p => (p.1, f p.2))).lookup j) = (l.lookup j).map f := by
  induction l with
  | nil => rfl
  | cons p l ih =>
      obtain ⟨k, w⟩ := p
      rw [List.map_cons, lookup_cons, lookup_cons]
      by_cases hk : j = k
      · rw [if_pos hk, if_pos hk]; rfl
      · rw [if_neg hk, if_neg hk, ih]

/-- The merge loop of `load`, run on fresh keys, appends the loaded users (with
empty `ActiveGames`) to the accumulator in file order. -/
theorem mergeLoaded_eq_append (m : PersistedMap) :
    ∀ acc : UsersMap, (∀ p ∈ m, acc.lookup p.1 = none) → (m.map Prod.fst).Nodup →
    mergeLoaded acc m
      = acc ++ m.map (fun p => (p.1, ({ Sessions := p.2, ActiveGames := [] } : UserGameData))) := by
  induction m with
  | nil => intro acc _ _; simp [mergeLoaded]
  | cons p m ih =>
      intro acc hdisj hnd
      obtain ⟨k, sess⟩ := p
      have hk : acc.lookup k = none := hdisj (k, sess) (List.mem_cons_self _ _)
      have hset : setUser acc k { Sessions := sess, ActiveGames := [] }
          = acc ++ [(k, { Sessions := sess, ActiveGames := [] })] := by
        rw [setUser, hk]
      have hnotin : ∀ q ∈ m, ¬q.1 = k := by
        intro q hq hqk
        have : k ∈ m.map Prod.fst := by
          rw [← hqk]
          exact List.mem_map_of_mem Prod.fst hq
        rw [List.map_cons] at hnd
        exact (List.nodup_cons.mp hnd).1 this
      have hdisj' : ∀ q ∈ m,
          (acc ++ [(k, ({ Sessions := sess, ActiveGames := [] } : UserGameData))]).lookup q.1
            = none := by
        intro q hq
        rw [lookup_append_right _ _ _ (hdisj q (List.mem_cons_of_mem _ hq)), lookup_cons,
          if_neg (hnotin q hq)]
        rfl
      have hnd' : (m.map Prod.fst).Nodup := by
        rw [List.map_cons] at hnd
        exact (List.nodup_cons.mp hnd).2
      have : mergeLoaded acc ((k, sess) :: m)
          = mergeLoaded (acc ++ [(k, { Sessions := sess, ActiveGames := [] })]) m := by
        rw [mergeLoaded, List.foldl_cons, hset, mergeLoaded]
      rw [this, ih _ hdisj' hnd', List.map_cons, List.append_assoc, List.singleton_append]

theorem any_map_general {α β : Type} (f : α → β) (l : List α) (p : β → Bool) :
    (l.map f).any p = l.any (fun a => p (f a)) := by
  induction l with
  | nil => rfl
  | cons a l ih => simp [ih]

theorem keyedSum_sessionContribs (ud : UserGameData) (g : String) :
    keyedSum (sessionContribs ud) g
      = ((ud.Sessions.filter (fun s => s.GameName == g)).map
          (fun s => goDurationSeconds s.Duration)).sum := by
  rw [keyedSum, sessionContribs, List.filter_map, List.map_map]
  rfl

theorem keyedSum_timerContribs (ud : UserGameData) (now : ℤ) (g : String) :
    keyedSum (timerContribs ud now) g
      = ((ud.ActiveGames.filter (fun gt => gt.1 == g)).map (fun gt => now - gt.2)).sum := by
  rw [keyedSum, timerContribs, List.filter_map, List.map_map]
  rfl

theorem hasKey_sessionContribs (ud : UserGameData) (g : String) :
    hasKey (sessionContribs ud) g = ud.Sessions.any (fun s => s.GameName == g) := by
  rw [hasKey, sessionContribs, any_map_general]

theorem hasKey_timerContribs (ud : UserGameData) (now : ℤ) (g : String) :
    hasKey (timerContribs ud now) g = ud.ActiveGames.any (fun gt => gt.1 == g) := by
  rw [hasKey, timerContribs, any_map_general]

/-- The merge loop of `load` never removes a key that was present before. -/
theorem lookup_isSome_mergeLoaded (m : PersistedMap) :
    ∀ (users : UsersMap) (j : String), ((users.lookup j).isSome = true) →
    (((mergeLoaded users m).lookup j).isSome = true) := by
  induction m with
  | nil => intro users j h; exact h
  | cons p m ih =>
      intro users j h
      rw [mergeLoaded, List.foldl_cons]
      have hstep : ((setUser users p.1 { Sessions := p.2, ActiveGames := [] }).lookup j).isSome
          = true := by
        rw [lookup_setUser]
        by_cases hj : j = p.1
        · rw [if_pos hj]; rfl
        · rw [if_neg hj]; exact h
      have := ih (setUser users p.1 { Sessions := p.2, ActiveGames := [] }) j hstep
      rw [mergeLoaded] at this
      exact this

/-- C1: the claim says every core operation terminates without blocking, in
particular a presence update that closes a timer and a reset for an existing
user, both of which call `save` while already inside the handler's critical
section. On the non-reentrant `sync.Mutex` semantics, both mutex traces
instead block forever (self-deadlock): the nested `ds.mu.Lock()` inside
`save` can never be acquired. -/
theorem presence_close_and_reset_selfdeadlock :
    completes (presenceUpdateTrace false []
        { Sessions := [], ActiveGames := [("Chess", 0)] }) false = false ∧
    completes (cleargamesTrace true) false = false := by
  constructor
  · rfl
  · rfl

/-- C8: `load` on a missing file yields no error and an empty Ledger, and on a
file whose contents do not unmarshal it yields the format error while leaving
the in-memory map exactly as it was (no partially loaded state, no crash). -/
theorem load_missing_file_empty_and_format_error (users : UsersMap) :
    loadUsers [] ReadResult.notExist = (none, ([] : UsersMap)) ∧
    loadUsers users (ReadResult.ok FileContent.invalid)
      = (some LoadError.formatError, users) :=
  ⟨rfl, rfl⟩

/-- C10: a failed unmarshal in `load` is atomic with respect to the Ledger:
the error is reported and the in-memory user map is returned unchanged,
because deserialization happens into a temporary map that is merged only on
success. -/
theorem failed_load_leaves_users_unchanged (users : UsersMap) :
    (loadUsers users (ReadResult.ok FileContent.invalid)).1 = some LoadError.formatError ∧
    (loadUsers users (ReadResult.ok FileContent.invalid)).2 = users :=
  ⟨rfl, rfl⟩

/-- C3 counterexample: a snapshot containing a name that is also in the open
timer set ("Chess" open since 0, snapshot still lists "Chess", now = 100) does
NOT produce one closed session and a fresh timer starting at 100, contrary to
the claim: the code treats it as a continuing session (a no-op for the name). -/
theorem same_name_stop_restart_not_reopened :
    ¬ ((reconcileUser [{ name := "Chess", type := ActivityType.game }] 100
          { Sessions := [], ActiveGames := [("Chess", 0)] }).Sessions.length = 1 ∧
       (reconcileUser [{ name := "Chess", type := ActivityType.game }] 100
          { Sessions := [], ActiveGames := [("Chess", 0)] }).ActiveGames.lookup "Chess"
         = some 100) := by
  decide

/-- C3 (amended): closures are processed before openings, but an activity name
present both in the open-timer set and in the snapshot is treated as a
continuing session: its timer keeps its original start time and no Session
with that name is produced by the reconciliation. -/
theorem running_activity_kept_not_restarted (acts : List Activity) (now : ℤ)
    (ud : UserGameData) (g : String)
    (hcur : currentActivities acts g = true)
    (hopen : (ud.ActiveGames.lookup g).isSome = true) :
    (reconcileUser acts now ud).ActiveGames.lookup g = ud.ActiveGames.lookup g ∧
    ∀ s ∈ (reconcileUser acts now ud).Sessions, s ∈ ud.Sessions ∨ ¬s.GameName = g := by
  have hAG : (reconcileUser acts now ud).ActiveGames
      = openNew acts now (ud.ActiveGames.filter (fun gt => currentActivities acts gt.1)) := rfl
  have hfil : (ud.ActiveGames.filter (fun gt => currentActivities acts gt.1)).lookup g
      = ud.ActiveGames.lookup g := lookup_filter_key _ _ _ hcur
  constructor
  · rw [hAG, lookup_openNew_of_isSome _ _ _ _ (by rw [hfil]; exact hopen), hfil]
  · intro s hs
    have hSess : (reconcileUser acts now ud).Sessions = ud.Sessions ++
        ((ud.ActiveGames.filter (fun gt => !currentActivities acts gt.1)).map
          (fun gt =>
            { GameName := gt.1
              StartTime := gt.2
              EndTime := now
              Duration := durationSeconds gt.2 now })) := rfl
    rw [hSess] at hs
    rcases List.mem_append.mp hs with h1 | h2
    · exact Or.inl h1
    · right
      obtain ⟨gt, hgt, rfl⟩ := List.mem_map.mp h2
      have hgt' : currentActivities acts gt.1 = false := by
        have := List.of_mem_filter hgt
        simpa using this
      intro e
      have e' : gt.1 = g := e
      rw [e', hcur] at hgt'
      exact Bool.noConfusion hgt'

/-- C3 witness for the amended theorem at a concrete input: the "Chess" timer
opened at 0 keeps its lookup across a snapshot still listing "Chess". -/
theorem running_activity_kept_witness :
    (reconcileUser [{ name := "Chess", type := ActivityType.game }] 100
        { Sessions := [], ActiveGames := [("Chess", 0)] }).ActiveGames.lookup "Chess"
      = ({ Sessions := [], ActiveGames := [("Chess", 0)] } : UserGameData).ActiveGames.lookup
          "Chess" :=
  (running_activity_kept_not_restarted
    [{ name := "Chess", type := ActivityType.game }] 100
    { Sessions := [], ActiveGames := [("Chess", 0)] } "Chess"
    (by decide) (by decide)).1

/-- C5: loading the saved form of a Ledger (with unique user keys, as Go maps
guarantee) reproduces every user's completed-session sequence exactly, in
order and with all field values, and gives every user an empty open-timer
map, regardless of which timers were open before saving; no error occurs. -/
theorem load_save_roundtrip (L : UsersMap) (hnd : (L.map Prod.fst).Nodup) :
    (loadUsers [] (ReadResult.ok (FileContent.valid (saveUsers L)))).1 = none ∧
    ∀ id : String,
      ((loadUsers [] (ReadResult.ok (FileContent.valid (saveUsers L)))).2.lookup id)
        = (L.lookup id).map
            (fun ud => ({ Sessions := ud.Sessions, ActiveGames := [] } : UserGameData)) := by
  constructor
  · rfl
  · intro id
    show (mergeLoaded [] (saveUsers L)).lookup id = _
    have hdisj : ∀ p ∈ saveUsers L, ([] : UsersMap).lookup p.1 = none := fun _ _ => rfl
    have hnd' : ((saveUsers L).map Prod.fst).Nodup := by
      rw [saveUsers, List.map_map]
      exact hnd
    rw [mergeLoaded_eq_append (saveUsers L) [] hdisj hnd', List.nil_append, saveUsers,
      List.map_map]
    exact lookup_map_val
      (fun ud : UserGameData => ({ Sessions := ud.Sessions, ActiveGames := [] } : UserGameData))
      L id

/-- C5 witness: round trip at a concrete two-user Ledger with an open timer,
instantiated at user "u". -/
theorem load_save_roundtrip_witness :
    (loadUsers [] (ReadResult.ok (FileContent.valid (saveUsers
        ([("u", ⟨[⟨"Chess", 0, 7, 9⟩], [("Go", 3)]⟩), ("v", emptyUserData)] : UsersMap))))).1
      = none ∧
    ((loadUsers [] (ReadResult.ok (FileContent.valid (saveUsers
        ([("u", ⟨[⟨"Chess", 0, 7, 9⟩], [("Go", 3)]⟩), ("v", emptyUserData)] : UsersMap))))).2.lookup
        "u")
      = ((([("u", ⟨[⟨"Chess", 0, 7, 9⟩], [("Go", 3)]⟩), ("v", emptyUserData)] : UsersMap)).lookup
          "u").map
          (fun ud => ({ Sessions := ud.Sessions, ActiveGames := [] } : UserGameData)) :=
  ⟨(load_save_roundtrip
      ([("u", ⟨[⟨"Chess", 0, 7, 9⟩], [("Go", 3)]⟩), ("v", emptyUserData)] : UsersMap)
      (by decide)).1,
   (load_save_roundtrip
      ([("u", ⟨[⟨"Chess", 0, 7, 9⟩], [("Go", 3)]⟩), ("v", emptyUserData)] : UsersMap)
      (by decide)).2 "u"⟩

/-- C6: every completed session the reconciler constructs (sessions not
already present before the update) has duration exactly equal to its end
timestamp minus its start timestamp (in seconds), and end ≥ start, provided
every open timer started no later than "now" (timers are always created at an
earlier `time.Now()`). -/
theorem reconciler_sessions_exact (acts : List Activity) (now : ℤ) (ud : UserGameData)
    (h : ∀ gt ∈ ud.ActiveGames, gt.2 ≤ now) :
    ∀ s ∈ (reconcileUser acts now ud).Sessions,
      s ∈ ud.Sessions ∨
        (s.Duration = durationSeconds s.StartTime s.EndTime ∧ s.StartTime ≤ s.EndTime) := by
  intro s hs
  have hSess : (reconcileUser acts now ud).Sessions = ud.Sessions ++
      ((ud.ActiveGames.filter (fun gt => !currentActivities acts gt.1)).map
        (fun gt =>
          { GameName := gt.1
            StartTime := gt.2
            EndTime := now
            Duration := durationSeconds gt.2 now })) := rfl
  rw [hSess] at hs
  rcases List.mem_append.mp hs with h1 | h2
  · exact Or.inl h1
  · right
    obtain ⟨gt, hgt, rfl⟩ := List.mem_map.mp h2
    exact ⟨rfl, h gt (List.mem_of_mem_filter hgt)⟩

/-- C6 witness: the session closed by a presence update at now = 100 for a
timer opened at 40 satisfies the exactness property. -/
theorem reconciler_sessions_exact_witness :
    (⟨"Chess", 40, 100, durationSeconds 40 100⟩ : GameSession) ∈
        ({ Sessions := [], ActiveGames := [("Chess", 40)] } : UserGameData).Sessions ∨
    ((⟨"Chess", 40, 100, durationSeconds 40 100⟩ : GameSession).Duration
        = durationSeconds (⟨"Chess", 40, 100, durationSeconds 40 100⟩ : GameSession).StartTime
            (⟨"Chess", 40, 100, durationSeconds 40 100⟩ : GameSession).EndTime ∧
      (⟨"Chess", 40, 100, durationSeconds 40 100⟩ : GameSession).StartTime
        ≤ (⟨"Chess", 40, 100, durationSeconds 40 100⟩ : GameSession).EndTime) :=
  reconciler_sessions_exact [] 100 { Sessions := [], ActiveGames := [("Chess", 40)] }
    (by decide) (⟨"Chess", 40, 100, durationSeconds 40 100⟩ : GameSession)
    (List.mem_cons_self _ _)

/-- C7: if the snapshot's game-name set coincides with the user's open-timer
key set (as a membership predicate), the reconciliation is a no-op: no session
is appended and the open-timer map is unchanged. -/
theorem reconcile_unchanged_snapshot_noop (acts : List Activity) (now : ℤ)
    (ud : UserGameData)
    (h : ∀ g : String, currentActivities acts g = (ud.ActiveGames.lookup g).isSome) :
    reconcileUser acts now ud = ud := by
  have hall : ∀ gt ∈ ud.ActiveGames, currentActivities acts gt.1 = true := by
    intro gt hgt
    obtain ⟨k, t⟩ := gt
    rw [h k]
    exact lookup_isSome_of_mem hgt
  have hfil1 : ud.ActiveGames.filter (fun gt => currentActivities acts gt.1)
      = ud.ActiveGames := List.filter_eq_self.mpr hall
  have hfil2 : ud.ActiveGames.filter (fun gt => !currentActivities acts gt.1) = [] := by
    rw [List.filter_eq_nil_iff]
    intro gt hgt
    simp [hall gt hgt]
  have hopen : openNew acts now ud.ActiveGames = ud.ActiveGames := by
    apply openNew_eq_self
    intro a ha ht
    rw [← h a.name]
    refine List.any_eq_true.mpr ⟨a, ha, ?_⟩
    simp [ht]
  have hre : reconcileUser acts now ud
      = { Sessions := ud.Sessions ++
            ((ud.ActiveGames.filter (fun gt => !currentActivities acts gt.1)).map
              (fun gt =>
                { GameName := gt.1
                  StartTime := gt.2
                  EndTime := now
                  Duration := durationSeconds gt.2 now }))
          ActiveGames := openNew acts now
            (ud.ActiveGames.filter (fun gt => currentActivities acts gt.1)) } := rfl
  rw [hre, hfil2, hfil1, hopen]
  cases ud
  simp

/-- C7 witness: a snapshot listing exactly the open game "Chess". -/
theorem reconcile_unchanged_snapshot_noop_witness :
    reconcileUser [{ name := "Chess", type := ActivityType.game }] 50
        { Sessions := [], ActiveGames := [("Chess", 7)] }
      = { Sessions := [], ActiveGames := [("Chess", 7)] } :=
  reconcile_unchanged_snapshot_noop
    [{ name := "Chess", type := ActivityType.game }] 50
    { Sessions := [], ActiveGames := [("Chess", 7)] }
    (by
      intro g
      by_cases hg : g = "Chess"
      · subst hg; decide
      · simp [currentActivities, lookup_cons, hg, beq_eq_false_iff_ne.mpr (Ne.symm hg)])

/-- C9: processing a non-bot presence update for a user always leaves that
user present in the map with a definite record (the reconciled one); a record
with empty sessions and empty open timers is created even when the snapshot
has no game-typed activities; and none of the operations — presence updates,
`!cleargames`, or `load` — ever removes an existing user key. -/
theorem presence_creates_user_and_ops_preserve_keys (users : UsersMap) (id : String)
    (acts : List Activity) (now : ℤ) :
    ((presenceUpdate false id acts now users).lookup id
        = some (reconcileUser acts now (getOrCreate users id))) ∧
    (users.lookup id = none → (∀ a ∈ acts, ¬a.type = ActivityType.game) →
        (presenceUpdate false id acts now users).lookup id = some emptyUserData) ∧
    (∀ (b : Bool) (u : String), ((users.lookup u).isSome = true) →
        (((presenceUpdate b id acts now users).lookup u).isSome = true)) ∧
    (∀ u : String, ((users.lookup u).isSome = true) →
        (((cleargames users id).lookup u).isSome = true)) ∧
    (∀ (r : ReadResult) (u : String), ((users.lookup u).isSome = true) →
        (((loadUsers users r).2.lookup u).isSome = true)) := by
  refine ⟨?_, ?_, ?_, ?_, ?_⟩
  · rw [presenceUpdate, if_neg (by simp), lookup_setUser, if_pos rfl]
  · intro hnone hng
    have hget : getOrCreate users id = emptyUserData := by
      rw [getOrCreate, hnone]
      rfl
    have hclose : closeStopped acts now emptyUserData
        = { Sessions := [], ActiveGames := [] } := rfl
    have hopen : openNew acts now [] = [] := by
      apply openNew_eq_self
      intro a ha ht
      exact absurd ht (hng a ha)
    have hrec : reconcileUser acts now emptyUserData = emptyUserData := by
      have : reconcileUser acts now emptyUserData
          = { Sessions := [], ActiveGames := openNew acts now [] } := rfl
      rw [this, hopen]
      rfl
    rw [presenceUpdate, if_neg (by simp), lookup_setUser, if_pos rfl, hget, hrec]
  · intro b u hu
    cases b with
    | true => exact hu
    | false =>
        rw [presenceUpdate, if_neg (by simp), lookup_setUser]
        by_cases hji : u = id
        · rw [if_pos hji]; rfl
        · rw [if_neg hji]; exact hu
  · intro u hu
    cases hid : users.lookup id with
    | none =>
        have : cleargames users id = users := by rw [cleargames, hid]
        rw [this]; exact hu
    | some w =>
        have : cleargames users id = setUser users id emptyUserData := by
          rw [cleargames, hid]
        rw [this, lookup_setUser]
        by_cases hji : u = id
        · rw [if_pos hji]; rfl
        · rw [if_neg hji]; exact hu
  · intro r u hu
    cases r with
    | notExist => exact hu
    | readFailed => exact hu
    | ok c =>
        cases c with
        | invalid => exact hu
        | valid m => exact lookup_isSome_mergeLoaded m users u hu

/-- C9 witness: a non-bot update with only a non-game activity creates an
empty record for a fresh user; existing keys survive an update and a clear. -/
theorem presence_creates_user_witness :
    ((presenceUpdate false "u" [{ name := "Spotify", type := ActivityType.listening }] 5
        []).lookup "u" = some emptyUserData) ∧
    (((presenceUpdate false "u" [] 7 [("v", emptyUserData)]).lookup "v").isSome = true) ∧
    (((cleargames [("v", emptyUserData)] "v").lookup "v").isSome = true) := by
  refine ⟨?_, ?_, ?_⟩
  · exact (presence_creates_user_and_ops_preserve_keys []
      "u" [{ name := "Spotify", type := ActivityType.listening }] 5).2.1 rfl (by decide)
  · exact (presence_creates_user_and_ops_preserve_keys [("v", emptyUserData)]
      "u" [] 7).2.2.1 false "v" (by decide)
  · exact (presence_creates_user_and_ops_preserve_keys [("v", emptyUserData)]
      "v" [] 0).2.2.2.1 "v" (by decide)

/-- C2 counterexample: a user with zero completed sessions but an open timer
("Chess" since 0, queried at now = 5000000000 > 0) receives the "no data"
signal, although the claim requires a report containing "Chess" with positive
duration whenever an open timer started strictly before now. -/
theorem report_noData_despite_open_timer :
    mygames [("u", { Sessions := [], ActiveGames := [("Chess", 0)] })] "u" 5000000000
      = ReportResult.noData ∧
    ({ Sessions := [], ActiveGames := [("Chess", 0)] } : UserGameData).ActiveGames ≠ [] ∧
    ((0 : ℤ) < 5000000000) := by
  refine ⟨by decide, by decide, by decide⟩

/-- C2 (amended): the report yields "no data" exactly when the user is unknown
or has no completed sessions — open timers are ignored by this gate. For a
user who does have at least one completed session, every open timer's game
appears in the report, and its total is positive when all of that game's
timers started strictly before now and all stored durations are nonnegative. -/
theorem mygames_noData_iff_no_sessions (users : UsersMap) (id : String) (now : ℤ) :
    (mygames users id now = ReportResult.noData ↔
      ∀ ud, users.lookup id = some ud → ud.Sessions = []) ∧
    (∀ (ud : UserGameData) (g : String) (t : ℤ),
      users.lookup id = some ud → ¬ud.Sessions = [] → (g, t) ∈ ud.ActiveGames →
      (∀ gt ∈ ud.ActiveGames, gt.1 = g → gt.2 < now) →
      (∀ s ∈ ud.Sessions, 0 ≤ s.Duration) →
      mygames users id now = ReportResult.report (reportTotals ud now) ∧
      ∃ v, (reportTotals ud now).lookup g = some v ∧ 0 < v) := by
  constructor
  · cases hl : users.lookup id with
    | none =>
        constructor
        · intro _ ud hud
          cases hud
        · intro _
          rw [mygames, hl]
    | some ud =>
        by_cases hlen : ud.Sessions.length = 0
        · have hnil : ud.Sessions = [] := List.length_eq_zero.mp hlen
          have hmy : mygames users id now = ReportResult.noData := by
            rw [mygames, hl]
            exact if_pos hlen
          rw [hmy]
          constructor
          · intro _ ud' hud'
            injection hud' with e
            rw [← e]
            exact hnil
          · intro _
            rfl
        · have hmy : mygames users id now = ReportResult.report (reportTotals ud now) := by
            rw [mygames, hl]
            exact if_neg hlen
          rw [hmy]
          constructor
          · intro hbad
            exact ReportResult.noConfusion hbad
          · intro hall
            exact absurd (by rw [hall ud rfl]; rfl : ud.Sessions.length = 0) hlen
  · intro ud g t hl hne hmem hts hdur
    have hlen : ¬ud.Sessions.length = 0 := fun h => hne (List.length_eq_zero.mp h)
    have hmy : mygames users id now = ReportResult.report (reportTotals ud now) := by
      rw [mygames, hl]
      exact if_neg hlen
    refine ⟨hmy, ?_⟩
    have hkeyT : hasKey (timerContribs ud now) g = true := by
      rw [hasKey_timerContribs]
      refine List.any_eq_true.mpr ⟨(g, t), hmem, ?_⟩
      simp
    have hcond : (hasKey (sessionContribs ud) g || hasKey (timerContribs ud now) g)
        = true := by
      rw [hkeyT, Bool.or_true]
    rw [reportTotals_lookup, if_pos hcond]
    refine ⟨_, rfl, ?_⟩
    have hsess : 0 ≤ keyedSum (sessionContribs ud) g := by
      rw [keyedSum_sessionContribs]
      apply List.sum_nonneg
      intro x hx
      obtain ⟨s, hsf, rfl⟩ := List.mem_map.mp hx
      have hsmem : s ∈ ud.Sessions := List.mem_of_mem_filter hsf
      have hd := hdur s hsmem
      have hnum : 0 ≤ s.Duration.num := Rat.num_nonneg.mpr hd
      have htr : (0 : ℤ) ≤ ratTrunc s.Duration :=
        Int.tdiv_nonneg hnum (Int.natCast_nonneg _)
      exact mul_nonneg htr (by norm_num [nsPerSec])
    have htimer : 0 < keyedSum (timerContribs ud now) g := by
      rw [keyedSum_timerContribs]
      apply List.sum_pos
      · intro x hx
        obtain ⟨gt, hgf, rfl⟩ := List.mem_map.mp hx
        have h1 : gt ∈ ud.ActiveGames := List.mem_of_mem_filter hgf
        have h2 : gt.1 = g := by
          have := List.of_mem_filter hgf
          simpa using this
        exact sub_pos.mpr (hts gt h1 h2)
      · intro hnil
        have hin : (g, t) ∈ ud.ActiveGames.filter (fun gt => gt.1 == g) := by
          rw [List.mem_filter]
          exact ⟨hmem, by simp⟩
        rw [List.map_eq_nil_iff] at hnil
        rw [hnil] at hin
        cases hin
    exact add_pos_of_nonneg_of_pos hsess htimer

/-- C2 witness for the amended theorem: a user with one completed session and
an open "Chess" timer started before now gets a report with positive "Chess"
total. -/
theorem mygames_open_timer_positive_witness :
    mygames [("u", ⟨[⟨"Go", 0, 10000000000, 10⟩], [("Chess", 0)]⟩)] "u" 5000000000
      = ReportResult.report
          (reportTotals (⟨[⟨"Go", 0, 10000000000, 10⟩], [("Chess", 0)]⟩ : UserGameData)
            5000000000) ∧
    ∃ v, (reportTotals (⟨[⟨"Go", 0, 10000000000, 10⟩], [("Chess", 0)]⟩ : UserGameData)
        5000000000).lookup "Chess" = some v ∧ 0 < v :=
  (mygames_noData_iff_no_sessions
      [("u", ⟨[⟨"Go", 0, 10000000000, 10⟩], [("Chess", 0)]⟩)] "u" 5000000000).2
    (⟨[⟨"Go", 0, 10000000000, 10⟩], [("Chess", 0)]⟩ : UserGameData) "Chess" 0
    (by decide) (by decide) (by decide) (by decide) (by decide)

/-- C4 counterexample: a completed session of exactly 1.5 seconds (start 0,
end 1500000000 ns, duration computed by the reconciler's formula) is reported
as 1000000000 ns (1 second): `time.Duration(session.Duration) * time.Second`
truncates the fractional part, while the exact sum of duration fields would
be 1500000000 ns. -/
theorem report_truncates_fractional_seconds :
    (reportTotals (⟨[⟨"Chess", 0, 1500000000, durationSeconds 0 1500000000⟩], []⟩
        : UserGameData) 0).lookup "Chess" = some 1000000000 ∧
    durationSeconds 0 1500000000 * (nsPerSec : ℚ) = ((1500000000 : ℤ) : ℚ) ∧
    ¬((1000000000 : ℤ) = 1500000000) := by
  refine ⟨?_, ?_, by decide⟩
  · rw [show durationSeconds 0 1500000000 = Rat.divInt 3 2 from by
      norm_num [durationSeconds, nsPerSec, Rat.divInt_eq_div]]
    decide
  · norm_num [durationSeconds, nsPerSec]

/-- C4 (amended): every total in the report equals the sum, over that game's
completed sessions, of the duration field truncated toward zero to whole
seconds (converted to nanoseconds), plus the exact (now − start) for each of
that game's open timers; fractional seconds of stored durations are truncated,
open-timer spans are exact. -/
theorem report_total_truncated_sessions_plus_open (ud : UserGameData) (now : ℤ)
    (g : String) (v : ℤ)
    (h : (reportTotals ud now).lookup g = some v) :
    v = ((ud.Sessions.filter (fun s => s.GameName == g)).map
          (fun s => goDurationSeconds s.Duration)).sum
        + ((ud.ActiveGames.filter (fun gt => gt.1 == g)).map (fun gt => now - gt.2)).sum := by
  rw [reportTotals_lookup] at h
  by_cases hc : (hasKey (sessionContribs ud) g || hasKey (timerContribs ud now) g) = true
  · rw [if_pos hc] at h
    injection h with h
    rw [← h, keyedSum_sessionContribs, keyedSum_timerContribs]
  · rw [if_neg hc] at h
    cases h

/-- C4 witness for the amended theorem: the 1.5-second session reports as the
truncated 1000000000 ns, which matches the truncated-sessions-plus-open sum. -/
theorem report_total_truncated_witness :
    ((reportTotals (⟨[⟨"Chess", 0, 1500000000, Rat.divInt 3 2⟩], []⟩ : UserGameData)
        0).lookup "Chess" = some 1000000000) ∧
    ((1000000000 : ℤ) =
      (((⟨[⟨"Chess", 0, 1500000000, Rat.divInt 3 2⟩], []⟩ : UserGameData).Sessions.filter
          (fun s => s.GameName == "Chess")).map (fun s => goDurationSeconds s.Duration)).sum
      + (((⟨[⟨"Chess", 0, 1500000000, Rat.divInt 3 2⟩], []⟩ : UserGameData).ActiveGames.filter
          (fun gt => gt.1 == "Chess")).map (fun gt => (0 : ℤ) - gt.2)).sum) :=
  ⟨by decide,
   report_total_truncated_sessions_plus_open
     (⟨[⟨"Chess", 0, 1500000000, Rat.divInt 3 2⟩], []⟩ : UserGameData) 0 "Chess" 1000000000
     (by decide)⟩
